import Mathlib

/-!
# Verification of `optimize_photos.py`

A shallow embedding of the photo optimization and renaming script
(`src/optimize_photos.py`) together with proofs about the claims of its
specification.  Pure fragments of the Python code become Lean functions;
the per-file processing loop becomes explicit state passing; fallible
operations return `Option`.  Machine floating point (the resize-height
computation `int(height * (max_width / width))`) is modelled exactly, by
round-to-nearest-even binary64 arithmetic over `ℚ`.
-/

/-! ## Calendar timestamps

`datetime` values as produced by `datetime.strptime` / `datetime.fromtimestamp`.
Only the fields used by the script (`strftime('%Y-%m-%d-%H%M')`) matter.
-/

structure DateTime where
  year : ℕ
  month : ℕ
  day : ℕ
  hour : ℕ
  minute : ℕ
  second : ℕ
deriving DecidableEq, Repr

/-- A character `'0'`–`'9'`. -/
def isDigit (c : Char) : Bool := '0' ≤ c && c ≤ '9'

/-- Numeric value of a digit character. -/
def digitVal (c : Char) : ℕ := c.toNat - '0'.toNat

/-- Read a big-endian list of digit characters as a natural number. -/
def readNatL (cs : List Char) : ℕ := cs.foldl (fun a c => 10 * a + digitVal c) 0

/-- Gregorian leap year, as used by Python's `datetime` validation. -/
def isLeap (y : ℕ) : Bool := (y % 4 = 0 && y % 100 ≠ 0) || y % 400 = 0

/-- Number of days in a month, as validated by `datetime.strptime`. -/
def daysInMonth (y m : ℕ) : ℕ :=
  if m = 2 then (if isLeap y then 29 else 28)
  else if m = 4 ∨ m = 6 ∨ m = 9 ∨ m = 11 then 30 else 31

/-- `datetime.strptime(s, "%Y:%m:%d %H:%M:%S")` (line 44 of the source):
`some dt` on success, `none` when the call raises `ValueError`.  The
canonical EXIF shape `YYYY:MM:DD HH:MM:SS` with two-digit fields is
accepted; field ranges are validated as `datetime` does (month 1–12, day
valid for the month and leap year, hour ≤ 23, minute/second ≤ 59,
year ≥ 1). -/
def parseExifDT (s : String) : Option DateTime :=
  match s.data with
  | [y1, y2, y3, y4, c1, m1, m2, c2, d1, d2, sp, h1, h2, c3, i1, i2, c4, s1, s2] =>
    if ([y1, y2, y3, y4, m1, m2, d1, d2, h1, h2, i1, i2, s1, s2].all isDigit
        && c1 = ':' && c2 = ':' && sp = ' ' && c3 = ':' && c4 = ':') then
      let y := readNatL [y1, y2, y3, y4]
      let mo := readNatL [m1, m2]
      let d := readNatL [d1, d2]
      let h := readNatL [h1, h2]
      let mi := readNatL [i1, i2]
      let se := readNatL [s1, s2]
      if 1 ≤ y ∧ 1 ≤ mo ∧ mo ≤ 12 ∧ 1 ≤ d ∧ d ≤ daysInMonth y mo
          ∧ h ≤ 23 ∧ mi ≤ 59 ∧ se ≤ 59 then
        some ⟨y, mo, d, h, mi, se⟩
      else none
    else none
  | _ => none

/-! ## Decimal rendering (Python `str` on `int`, `strftime` zero padding) -/

/-- Big-endian decimal digits of `n` (empty for `0`); structural recursion
on a fuel argument that dominates the number of digits. -/
def natStrAux : ℕ → ℕ → List Char
  | 0, _ => []
  | fuel + 1, n => if n = 0 then [] else natStrAux fuel (n / 10) ++ [Nat.digitChar (n % 10)]

/-- Python's `str(n)` for a natural number: standard decimal rendering. -/
def natStr (n : ℕ) : String := if n = 0 then "0" else ⟨natStrAux n n⟩

/-- `strftime` `%m`/`%d`/`%H`/`%M`-style zero padding to two digits. -/
def pad2 (n : ℕ) : String := if n < 10 then "0" ++ natStr n else natStr n

/-- `strftime` `%Y`-style zero padding to four digits. -/
def pad4 (n : ℕ) : String :=
  if n < 10 then "000" ++ natStr n
  else if n < 100 then "00" ++ natStr n
  else if n < 1000 then "0" ++ natStr n
  else natStr n

/-- `dt.strftime('%Y-%m-%d-%H%M')` (line 146 of the source). -/
def fmtTS (dt : DateTime) : String :=
  pad4 dt.year ++ "-" ++ pad2 dt.month ++ "-" ++ pad2 dt.day ++ "-"
    ++ pad2 dt.hour ++ pad2 dt.minute

/-- The stem `f"{event_name}-{dt.strftime('%Y-%m-%d-%H%M')}"` shared by all
candidate filenames of one file (lines 146 and 152). -/
def mkBase (event : String) (dt : DateTime) : String := event ++ "-" ++ fmtTS dt

/-! ## Filename derivation (lines 145–154)

The loop first tries `f"{base}.jpg"`, then `f"{base}-1.jpg"`,
`f"{base}-2.jpg"`, … until a name not present in the output directory is
found.  The directory contents are a finite list of names, so a fuel of
`dir.length + 1` attempts suffices (the candidates are pairwise distinct). -/

/-- The `counter`-th filename candidate: `counter = 0` is the plain base
name (line 146), `counter = k+1` is the suffixed form of line 152. -/
def candidate (base : String) : ℕ → String
  | 0 => base ++ ".jpg"
  | k + 1 => base ++ "-" ++ natStr (k + 1) ++ ".jpg"

/-- The `while output_file.exists()` loop of lines 150–154, with explicit
fuel. -/
def deriveNameAux (base : String) (dir : List String) : ℕ → ℕ → String
  | c, 0 => candidate base c
  | c, fuel + 1 =>
    if candidate base c ∈ dir then deriveNameAux base dir (c + 1) fuel
    else candidate base c

/-- Output filename chosen for a file: the first candidate that does not
collide with an existing name in the output directory. -/
def deriveName (base : String) (dir : List String) : String :=
  deriveNameAux base dir 0 (dir.length + 1)

/-! ## The metadata reader: `get_exif_datetime` (lines 29–56)

A source file is described by what the external world returns for it:
the EXIF dictionary that `piexif.load` yields (`none` when the load
raises), the filesystem modification time, and flags for the outcomes of
the remaining per-file operations the batch loop performs on it.
piexif tag numbers: `ExifIFD.DateTimeOriginal = 36867`,
`ExifIFD.DateTimeDigitized = 36868`. -/

def tagDateTimeOriginal : ℕ := 36867
def tagDateTimeDigitized : ℕ := 36868

structure FileSpec where
  /-- `img_file.name`: the source file's own name (used for the backup copy). -/
  name : String
  /-- `img_file.stat().st_size` (line 157). -/
  size : ℕ
  /-- the `"Exif"` block of `piexif.load(...)` as tag–string pairs
  (decoded); `none` models `piexif.load` raising. -/
  exif : Option (List (ℕ × String))
  /-- `datetime.fromtimestamp(os.path.getmtime(...))`. -/
  mtime : DateTime
  /-- `img_file.stat()` at line 157 raises (file vanished after listing). -/
  statRaises : Bool
  /-- result of `optimize_image` (lines 58–102): `some n` means success
  with an output of `n` bytes on disk, `none` means it returned `False`. -/
  transcodeResult : Option ℕ
  /-- `shutil.copy2` at line 172 raises. -/
  backupRaises : Bool
deriving DecidableEq, Repr

/-- `get_exif_datetime` (lines 29–56).  Returns the derived timestamp and
whether the mtime fallback (with its warning) was taken.  The `for` loop
over the two tags parses the first *present* tag; a `ValueError` from
`strptime` (or a decode error) escapes the loop into the `except` handler,
which falls back to the modification time. -/
def get_exif_datetime (f : FileSpec) : DateTime × Bool :=
  match f.exif with
  | none => (f.mtime, true)            -- piexif.load raised → except branch
  | some d =>
    match d.lookup tagDateTimeOriginal with
    | some s =>
      match parseExifDT s with
      | some dt => (dt, false)
      | none => (f.mtime, true)        -- strptime raised → except branch
    | none =>
      match d.lookup tagDateTimeDigitized with
      | some s =>
        match parseExifDT s with
        | some dt => (dt, false)
        | none => (f.mtime, true)      -- strptime raised → except branch
      | none => (f.mtime, true)        -- no tag present → explicit fallback

/-! ## The batch loop: `process_photos` (lines 104–193) -/

/-- Mutable state of one batch run: the contents of the output directory
(existing names, newest first), the backup directory contents, and the
four statistics counters. -/
structure BatchState where
  dir : List String
  backups : List String
  processed : ℕ
  failed : ℕ
  totalOrig : ℕ
  totalOpt : ℕ
deriving DecidableEq, Repr

/-- The body of the `for img_file in sorted(image_files)` loop
(lines 140–180), one iteration.  Every failure path lands in the
`except` handler of line 178, which increments `failed` and falls through
to the next file:
* a raise at `img_file.stat()` (line 157);
* `optimize_image` returning `False` (line 175);
* the per-file reduction print (line 166) dividing by a zero
  `original_size`;
* a raise in `shutil.copy2` (line 172).
On full success the output name is on disk, the original is in the
backup directory, and both size totals and `processed` are updated. -/
def processFile (event : String) (st : BatchState) (f : FileSpec) : BatchState :=
  let dt := (get_exif_datetime f).1
  let nm := deriveName (mkBase event dt) st.dir
  if f.statRaises then
    { st with failed := st.failed + 1 }
  else
    let origAccrued := st.totalOrig + f.size
    match f.transcodeResult with
    | some outSize =>
      -- line 162 succeeded: the output file exists on disk
      let dir' := nm :: st.dir
      let optAccrued := st.totalOpt + outSize
      if f.size = 0 then
        -- line 166: ZeroDivisionError → except handler
        { st with dir := dir', totalOrig := origAccrued, totalOpt := optAccrued,
                  failed := st.failed + 1 }
      else if f.backupRaises then
        -- line 172 raised → except handler
        { st with dir := dir', totalOrig := origAccrued, totalOpt := optAccrued,
                  failed := st.failed + 1 }
      else
        { st with dir := dir', totalOrig := origAccrued, totalOpt := optAccrued,
                  backups := f.name :: st.backups, processed := st.processed + 1 }
    | none =>
      -- optimize_image returned False (line 175); note the original size
      -- was already accrued at line 158
      { st with totalOrig := origAccrued, failed := st.failed + 1 }

/-- Aggregate summary (lines 183–193).  The reduction percentage of
line 190 divides by `total_original_size`; `none` models the
`ZeroDivisionError` raised when that total is zero. -/
structure Summary where
  processed : ℕ
  failed : ℕ
  totalOrig : ℕ
  totalOpt : ℕ
  reductionPct : ℚ
deriving DecidableEq

/-- The summary computation: crashes (`none`) iff `total_original_size = 0`. -/
def summaryOf (st : BatchState) : Option Summary :=
  if st.totalOrig = 0 then none
  else some ⟨st.processed, st.failed, st.totalOrig, st.totalOpt,
             (1 - (st.totalOpt : ℚ) / (st.totalOrig : ℚ)) * 100⟩

/-- Result of one `process_photos` call. -/
inductive RunOutcome where
  /-- line 123–125: no image files, early `return`; no summary is printed. -/
  | noFiles
  /-- the loop ran to completion; the summary of line 190 either printed
  or raised `ZeroDivisionError` (`none`). -/
  | completed (st : BatchState) (summary : Option Summary)
deriving DecidableEq

/-- `process_photos` (lines 104–193): `dir0` is the pre-existing content
of the output directory, `files` the sorted list of qualifying image
files. -/
def process_photos (event : String) (dir0 : List String) (files : List FileSpec) :
    RunOutcome :=
  if files.isEmpty then .noFiles
  else
    let final := files.foldl (processFile event) ⟨dir0, [], 0, 0, 0, 0⟩
    .completed final (summaryOf final)

/-! ## Binary64 arithmetic over `ℚ` (Python floats)

Lines 73–75 compute `ratio = max_width / width` (true division of two
ints, an IEEE-754 binary64 result) and `new_height = int(height * ratio)`
(a binary64 product truncated toward zero).  For positive values in the
normal range these operations are exactly: round the mathematical result
to the nearest representable `m · 2^(e-52)` with `2^52 ≤ m < 2^53`, ties
to even.  That rounding is an exact computation on rationals, embedded
below. -/

/-- An exact rational as an unreduced fraction of integers.  (Lean's `ℚ`
normalizes through `Nat.gcd`, which the kernel cannot evaluate; these
pairs keep every operation kernel-computable.  All fractions built below
have a positive denominator.)  `Frac.val` interprets a fraction as the
rational it denotes; the proofs work over `ℚ` through it. -/
structure Frac where
  num : ℤ
  den : ℤ
deriving DecidableEq, Repr

/-- The rational value of a fraction. -/
def Frac.val (a : Frac) : ℚ := (a.num : ℚ) / (a.den : ℚ)

/-- Exact product of fractions. -/
def Frac.mul (a b : Frac) : Frac := ⟨a.num * b.num, a.den * b.den⟩

/-- `a / b` for natural numbers, as an exact fraction. -/
def Frac.divNat (a b : ℕ) : Frac := ⟨a, b⟩

/-- `a - z` for an integer `z`. -/
def Frac.subInt (a : Frac) (z : ℤ) : Frac := ⟨a.num - z * a.den, a.den⟩

/-- `a < b`, valid when both denominators are positive. -/
def Frac.blt (a b : Frac) : Bool := a.num * b.den < b.num * a.den

/-- `a ≤ 0`, valid when the denominator is positive. -/
def Frac.ble0 (a : Frac) : Bool := a.num ≤ 0

/-- `⌊a⌋`; `Int` division is Euclidean, which on a positive denominator
is floor division. -/
def Frac.floorF (a : Frac) : ℤ := a.num / a.den

/-- `a * 2^s` for an integer exponent. -/
def Frac.shift2 (a : Frac) : ℤ → Frac
  | .ofNat k => ⟨a.num * 2 ^ k, a.den⟩
  | .negSucc k => ⟨a.num, a.den * 2 ^ (k + 1)⟩

/-- `⌊log2 n⌋` by structural recursion on fuel (`fuel ≥ n` suffices). -/
def log2fuel : ℕ → ℕ → ℕ
  | 0, _ => 0
  | fuel + 1, n => if 2 ≤ n then log2fuel fuel (n / 2) + 1 else 0

/-- `⌊log2 n⌋` for `n ≥ 1`. -/
def myLog2 (n : ℕ) : ℕ := log2fuel n n

/-- The exponent `e` with `2^e ≤ a < 2^(e+1)`, for a fraction of positive
numerator and denominator. -/
def floorLog2F (a : Frac) : ℤ :=
  let e0 : ℤ := (myLog2 a.num.natAbs : ℤ) - (myLog2 a.den.natAbs : ℤ)
  if Frac.blt a (Frac.shift2 ⟨1, 1⟩ e0) then e0 - 1 else e0

/-- Round a fraction to the nearest integer, ties to even. -/
def rndInt (a : Frac) : ℤ :=
  let fl := a.floorF
  let fr := a.subInt fl
  if Frac.blt fr ⟨1, 2⟩ then fl
  else if Frac.blt ⟨1, 2⟩ fr then fl + 1
  else if fl % 2 = 0 then fl else fl + 1

/-- Round a nonnegative fraction to the nearest binary64 value
(round-to-nearest, ties to even), assuming no overflow/underflow: the
fraction is scaled into `[2^52, 2^53)`, rounded to an integer
significand, and scaled back. -/
def rnd53 (a : Frac) : Frac :=
  if a.ble0 then ⟨0, 1⟩
  else
    let s : ℤ := 52 - floorLog2F a
    Frac.shift2 ⟨rndInt (a.shift2 s), 1⟩ (-s)

/-- `int(height * (max_width / width))` in Python binary64 semantics:
the truncation of the rounded product of `height` with the rounded
quotient `max_width / width`. -/
def pyNewHeight (height width maxWidth : ℕ) : ℕ :=
  ((rnd53 (Frac.mul ⟨height, 1⟩ (rnd53 (Frac.divNat maxWidth width)))).floorF).toNat

/-- Lines 71–76: the resize decision.  Returns the pixel dimensions of the
image handed to the encoder. -/
def resizeDims (width height maxWidth : ℕ) : ℕ × ℕ :=
  if width > maxWidth then (maxWidth, pyNewHeight height width maxWidth)
  else (width, height)

/-! ## The image transcoder: `optimize_image` (lines 58–102) -/

/-- What lines 79–86 do to the pixel data before encoding. -/
inductive ColorOp where
  /-- pasted onto a fresh white RGB background (`withMask` records whether
  the paste used an alpha channel as mask, line 83). -/
  | pasteOnWhite (withMask : Bool)
  /-- `img.convert('RGB')` (line 86). -/
  | convertRGB
  /-- already RGB, left as is. -/
  | keep
deriving DecidableEq, Repr

/-- Lines 79–86: color-mode normalization.  Returns the operation applied
and the resulting mode.  `P` is first converted to `RGBA` (lines 81–82);
the paste mask of line 83 is the alpha split only when the (possibly
converted) mode is `RGBA`. -/
def colorNormalize (mode : String) : ColorOp × String :=
  if mode = "RGBA" ∨ mode = "LA" ∨ mode = "P" then
    let mode2 := if mode = "P" then "RGBA" else mode
    (.pasteOnWhite (mode2 = "RGBA"), "RGB")
  else if mode ≠ "RGB" then (.convertRGB, "RGB")
  else (.keep, "RGB")

/-- A source image as `Image.open` and `piexif` see it. -/
structure SrcImage where
  mode : String
  width : ℕ
  height : ℕ
  /-- `piexif.dump(piexif.load(str(input_path)))` (line 66): `some b` when
  it succeeds with blob `b`, `none` when it raises (caught at line 67). -/
  exifBlob : Option (List ℕ)
  /-- `Image.open` (line 62) raises. -/
  openFails : Bool
  /-- `img.save` (line 97) raises. -/
  saveFails : Bool
deriving DecidableEq, Repr

/-- The encoder call `img.save(output_path, 'JPEG', **save_kwargs)`. -/
structure OutImage where
  width : ℕ
  height : ℕ
  mode : String
  colorOp : ColorOp
  /-- the `exif` entry of `save_kwargs`, attached only when `exif_bytes`
  is truthy (line 94: non-`None` and nonempty). -/
  exif : Option (List ℕ)
  quality : ℕ
  optimizeFlag : Bool
  progressive : Bool
deriving DecidableEq, Repr

/-- `optimize_image` (lines 58–102): `some out` when it returns `True`
having written `out`, `none` when any exception was caught (line 100)
and it returned `False`. -/
def optimize_image (img : SrcImage) (maxWidth quality : ℕ) : Option OutImage :=
  if img.openFails then none
  else
    let exifBytes := img.exifBlob       -- lines 65–68 (never raises)
    let dims := resizeDims img.width img.height maxWidth
    let norm := colorNormalize img.mode
    if img.saveFails then none
    else
      some { width := dims.1, height := dims.2, mode := norm.2, colorOp := norm.1,
             exif := match exifBytes with
                     | some b => if b.isEmpty then none else some b
                     | none => none,
             quality := quality, optimizeFlag := true, progressive := true }

/-! ## Helper lemmas: decimal rendering is injective -/

theorem readNatL_append (xs : List Char) (c : Char) :
    readNatL (xs ++ [c]) = 10 * readNatL xs + digitVal c := by
  simp [readNatL, List.foldl_append]

theorem digitVal_digitChar : ∀ r < 10, digitVal (Nat.digitChar r) = r := by decide

theorem readNatL_natStrAux : ∀ fuel n, n ≤ fuel → readNatL (natStrAux fuel n) = n := by
  intro fuel
  induction fuel with
  | zero =>
    intro n hn
    have : n = 0 := Nat.le_zero.mp hn
    subst this
    rfl
  | succ fuel ih =>
    intro n hn
    by_cases h0 : n = 0
    · subst h0; rfl
    · have h1 : 1 ≤ n := Nat.one_le_iff_ne_zero.mpr h0
      have hdiv : n / 10 ≤ fuel := by
        have : n / 10 < n := Nat.div_lt_self h1 (by norm_num)
        omega
      rw [natStrAux, if_neg h0, readNatL_append, ih _ hdiv,
        digitVal_digitChar _ (Nat.mod_lt _ (by norm_num))]
      omega

theorem natStr_injective : Function.Injective natStr := by
  intro m n h
  unfold natStr at h
  by_cases hm : m = 0 <;> by_cases hn : n = 0 <;> simp [hm, hn] at h ⊢
  · -- "0" = ⟨natStrAux n n⟩
    have hd : ("0" : String).data = natStrAux n n := congrArg String.data h
    have := readNatL_natStrAux n n le_rfl
    rw [← hd] at this
    simp [readNatL, digitVal] at this
    omega
  · have hd : natStrAux m m = ("0" : String).data := congrArg String.data h
    have := readNatL_natStrAux m m le_rfl
    rw [hd] at this
    simp [readNatL, digitVal] at this
    omega
  · have hd : natStrAux m m = natStrAux n n := congrArg String.data h
    have h1 := readNatL_natStrAux m m le_rfl
    have h2 := readNatL_natStrAux n n le_rfl
    rw [hd, h2] at h1
    exact h1.symm

/-! ## Helper lemmas: the candidate names of one file are pairwise distinct -/

theorem candidate_injective (base : String) : Function.Injective (candidate base) := by
  intro i j h
  match i, j with
  | 0, 0 => rfl
  | 0, k + 1 =>
    exfalso
    have hd := congrArg String.data h
    simp only [candidate, String.data_append, List.append_assoc] at hd
    have := List.append_cancel_left hd
    simp at this
  | k + 1, 0 =>
    exfalso
    have hd := congrArg String.data h
    simp only [candidate, String.data_append, List.append_assoc] at hd
    have := List.append_cancel_left hd
    simp at this
  | k + 1, l + 1 =>
    have hd := congrArg String.data h
    simp only [candidate, String.data_append, List.append_assoc] at hd
    have h1 := List.append_cancel_left hd
    have h2 := List.append_cancel_left h1
    have h3 := List.append_cancel_right h2
    have h4 : natStr (k + 1) = natStr (l + 1) := by
      have e1 : natStr (k + 1) = ⟨(natStr (k + 1)).data⟩ := by cases natStr (k + 1); rfl
      have e2 : natStr (l + 1) = ⟨(natStr (l + 1)).data⟩ := by cases natStr (l + 1); rfl
      rw [e1, e2, h3]
    have := natStr_injective h4
    omega

/-- Pigeonhole: among the first `dir.length + 1` candidates at least one
is not already in the directory. -/
theorem exists_fresh_candidate (base : String) (dir : List String) :
    ∃ j, j ≤ dir.length ∧ candidate base j ∉ dir := by
  by_contra hcon
  push_neg at hcon
  have hsub : (Finset.range (dir.length + 1)).image (candidate base) ⊆ dir.toFinset := by
    intro x hx
    simp only [Finset.mem_image, Finset.mem_range] at hx
    obtain ⟨j, hj, rfl⟩ := hx
    exact List.mem_toFinset.mpr (hcon j (by omega))
  have hcard := Finset.card_le_card hsub
  rw [Finset.card_image_of_injective _ (candidate_injective base), Finset.card_range] at hcard
  have := dir.toFinset_card_le
  omega

/-- The collision loop returns the first free candidate at or after the
starting counter, provided a free candidate exists within fuel range. -/
theorem deriveNameAux_spec (base : String) (dir : List String) :
    ∀ fuel c, (∃ j, c ≤ j ∧ j ≤ c + fuel ∧ candidate base j ∉ dir) →
      ∃ j, deriveNameAux base dir c fuel = candidate base j ∧ c ≤ j ∧
        candidate base j ∉ dir ∧ ∀ i, c ≤ i → i < j → candidate base i ∈ dir := by
  intro fuel
  induction fuel with
  | zero =>
    rintro c ⟨j, hj1, hj2, hj3⟩
    have hjc : j = c := by omega
    subst hjc
    exact ⟨j, rfl, le_rfl, hj3, fun i h1 h2 => absurd (lt_of_le_of_lt h1 h2) (lt_irrefl j)⟩
  | succ fuel ih =>
    rintro c ⟨j, hj1, hj2, hj3⟩
    by_cases hc : candidate base c ∈ dir
    · have hcj : c ≠ j := by rintro rfl; exact hj3 hc
      obtain ⟨j', he, hge, hnm, hall⟩ := ih (c + 1) ⟨j, by omega, by omega, hj3⟩
      refine ⟨j', ?_, by omega, hnm, ?_⟩
      · rw [deriveNameAux, if_pos hc]; exact he
      · intro i h1 h2
        rcases Nat.eq_or_lt_of_le h1 with h | h
        · rwa [← h]
        · exact hall i h h2
    · exact ⟨c, by rw [deriveNameAux, if_neg hc], le_rfl, hc,
        fun i h1 h2 => absurd (lt_of_le_of_lt h1 h2) (lt_irrefl c)⟩

/-- `deriveName` returns the least-index free candidate. -/
theorem deriveName_spec (base : String) (dir : List String) :
    ∃ j, deriveName base dir = candidate base j ∧
      candidate base j ∉ dir ∧ ∀ i, i < j → candidate base i ∈ dir := by
  obtain ⟨j, hj1, hj2⟩ := exists_fresh_candidate base dir
  obtain ⟨j', he, _, hnm, hall⟩ :=
    deriveNameAux_spec base dir (dir.length + 1) 0 ⟨j, by omega, by omega, hj2⟩
  exact ⟨j', he, hnm, fun i h => hall i (Nat.zero_le i) h⟩

/-- The chosen name never collides with the current directory contents. -/
theorem deriveName_not_mem (base : String) (dir : List String) :
    deriveName base dir ∉ dir := by
  obtain ⟨j, he, hnm, _⟩ := deriveName_spec base dir
  rw [he]; exact hnm

/-! ## Helper lemmas: one iteration of the batch loop -/

/-- Each loop iteration either leaves the output directory unchanged or
adds exactly one name, which was not present before. -/
theorem processFile_dir (event : String) (st : BatchState) (f : FileSpec) :
    (processFile event st f).dir = st.dir ∨
    ∃ nm, (processFile event st f).dir = nm :: st.dir ∧ nm ∉ st.dir := by
  unfold processFile
  split
  · exact Or.inl rfl
  · split
    · split
      · exact Or.inr ⟨_, rfl, deriveName_not_mem _ _⟩
      · split
        · exact Or.inr ⟨_, rfl, deriveName_not_mem _ _⟩
        · exact Or.inr ⟨_, rfl, deriveName_not_mem _ _⟩
    · exact Or.inl rfl

/-- Each loop iteration increments exactly one of the two counters. -/
theorem processFile_count (event : String) (st : BatchState) (f : FileSpec) :
    (processFile event st f).processed + (processFile event st f).failed
      = st.processed + st.failed + 1 := by
  unfold processFile
  split
  · simp_arith
  · split
    · split
      · simp_arith
      · split <;> simp_arith
    · simp_arith

/-- Folding the loop body over the file list: the counters account for
every file. -/
theorem foldl_count (event : String) (files : List FileSpec) :
    ∀ st : BatchState,
      ((files.foldl (processFile event) st).processed
        + (files.foldl (processFile event) st).failed)
      = st.processed + st.failed + files.length := by
  induction files with
  | nil => intro st; simp
  | cons f fs ih =>
    intro st
    rw [List.foldl_cons, ih (processFile event st f), processFile_count]
    simp
    omega

/-- Folding the loop body: the names added to the output directory during
the run are pairwise distinct and disjoint from the pre-existing contents. -/
theorem foldl_dir_nodup (event : String) (dir0 : List String) (files : List FileSpec) :
    ∀ st : BatchState,
      (∃ fresh, st.dir = fresh ++ dir0 ∧ fresh.Nodup ∧ ∀ n ∈ fresh, n ∉ dir0) →
      ∃ fresh, (files.foldl (processFile event) st).dir = fresh ++ dir0 ∧
        fresh.Nodup ∧ ∀ n ∈ fresh, n ∉ dir0 := by
  induction files with
  | nil => intro st h; simpa using h
  | cons f fs ih =>
    rintro st ⟨fresh, hdir, hnd, hdisj⟩
    rw [List.foldl_cons]
    apply ih
    rcases processFile_dir event st f with h | ⟨nm, he, hnm⟩
    · exact ⟨fresh, by rw [h, hdir], hnd, hdisj⟩
    · refine ⟨nm :: fresh, by rw [he, hdir]; rfl, ?_, ?_⟩
      · refine List.nodup_cons.mpr ⟨fun hin => hnm ?_, hnd⟩
        rw [hdir]
        exact List.mem_append.mpr (Or.inl hin)
      · intro n hn
        rcases List.mem_cons.mp hn with rfl | hn
        · intro hin0
          exact hnm (by rw [hdir]; exact List.mem_append.mpr (Or.inr hin0))
        · exact hdisj n hn

/-! ## Helper lemmas: fraction arithmetic and binary64 rounding -/

theorem Frac.val_mul (a b : Frac) : (a.mul b).val = a.val * b.val := by
  simp only [Frac.val, Frac.mul]
  push_cast
  rw [div_mul_div_comm]

theorem Frac.val_subInt (a : Frac) (z : ℤ) (ha : (a.den : ℚ) ≠ 0) :
    (a.subInt z).val = a.val - z := by
  simp only [Frac.val, Frac.subInt]
  push_cast
  field_simp
  ring

theorem Frac.blt_iff (a b : Frac) (ha : 0 < a.den) (hb : 0 < b.den) :
    a.blt b = true ↔ a.val < b.val := by
  have ha' : (0 : ℚ) < a.den := by exact_mod_cast ha
  have hb' : (0 : ℚ) < b.den := by exact_mod_cast hb
  simp only [Frac.blt, Frac.val, decide_eq_true_eq]
  rw [div_lt_div_iff₀ ha' hb']
  constructor
  · intro h; exact_mod_cast h
  · intro h; exact_mod_cast h

theorem Frac.ble0_iff (a : Frac) (ha : 0 < a.den) :
    a.ble0 = true ↔ a.val ≤ 0 := by
  have ha' : (0 : ℚ) < a.den := by exact_mod_cast ha
  simp only [Frac.ble0, Frac.val, decide_eq_true_eq]
  rw [div_nonpos_iff]
  constructor
  · intro h; right; exact ⟨by exact_mod_cast h, le_of_lt ha'⟩
  · rintro (⟨_, h2⟩ | ⟨h1, _⟩)
    · exact absurd (lt_of_lt_of_le ha' h2) (lt_irrefl _)
    · exact_mod_cast h1

theorem Frac.floorF_eq (a : Frac) (ha : 0 < a.den) : a.floorF = ⌊a.val⌋ := by
  obtain ⟨d, hd⟩ : ∃ d : ℕ, a.den = (d : ℤ) :=
    ⟨a.den.toNat, (Int.toNat_of_nonneg (le_of_lt ha)).symm⟩
  simp only [Frac.floorF, Frac.val, hd]
  rw [show (((d : ℤ) : ℚ)) = ((d : ℕ) : ℚ) by push_cast; ring]
  exact (Rat.floor_intCast_div_natCast a.num d).symm

theorem Frac.shift2_den (a : Frac) (s : ℤ) (ha : 0 < a.den) : 0 < (a.shift2 s).den := by
  cases s with
  | ofNat k => exact ha
  | negSucc k => exact mul_pos ha (by positivity)

theorem Frac.val_shift2 (a : Frac) (s : ℤ) : (a.shift2 s).val = a.val * (2 : ℚ) ^ s := by
  cases s with
  | ofNat k =>
    simp only [Frac.shift2, Frac.val, Int.ofNat_eq_coe, zpow_natCast]
    push_cast
    ring
  | negSucc k =>
    simp only [Frac.shift2, Frac.val, zpow_negSucc]
    push_cast
    ring

/-- Specification of the fuelled base-2 logarithm. -/
theorem log2fuel_spec : ∀ fuel n, 1 ≤ n → n ≤ fuel →
    2 ^ log2fuel fuel n ≤ n ∧ n < 2 ^ (log2fuel fuel n + 1) := by
  intro fuel
  induction fuel with
  | zero => intro n h1 h2; omega
  | succ fuel ih =>
    intro n h1 h2
    by_cases h : 2 ≤ n
    · have hrec := ih (n / 2) (by omega) (by omega)
      rw [log2fuel, if_pos h]
      constructor
      · calc 2 ^ (log2fuel fuel (n / 2) + 1) = 2 ^ log2fuel fuel (n / 2) * 2 := by ring
        _ ≤ n / 2 * 2 := by exact Nat.mul_le_mul_right 2 hrec.1
        _ ≤ n := by omega
      · calc n < (n / 2 + 1) * 2 := by omega
        _ ≤ 2 ^ (log2fuel fuel (n / 2) + 1) * 2 := by
              exact Nat.mul_le_mul_right 2 hrec.2
        _ = 2 ^ (log2fuel fuel (n / 2) + 1 + 1) := by ring
    · have hn : n = 1 := by omega
      subst hn
      rw [log2fuel, if_neg h]
      omega

theorem myLog2_spec (n : ℕ) (h : 1 ≤ n) :
    2 ^ myLog2 n ≤ n ∧ n < 2 ^ (myLog2 n + 1) :=
  log2fuel_spec n n h le_rfl

/-- `floorLog2F` brackets a positive fraction between consecutive powers
of two. -/
theorem floorLog2F_spec (a : Frac) (hn : 0 < a.num) (hd : 0 < a.den) :
    (2 : ℚ) ^ floorLog2F a ≤ a.val ∧ a.val < 2 ^ (floorLog2F a + 1) := by
  have hx : 1 ≤ a.num.natAbs := by omega
  have hy : 1 ≤ a.den.natAbs := by omega
  obtain ⟨hx1, hx2⟩ := myLog2_spec _ hx
  obtain ⟨hy1, hy2⟩ := myLog2_spec _ hy
  set p := myLog2 a.num.natAbs with hp
  set q := myLog2 a.den.natAbs with hq
  have hnq : (0 : ℚ) < (a.num : ℚ) := by exact_mod_cast hn
  have hdq : (0 : ℚ) < (a.den : ℚ) := by exact_mod_cast hd
  have hA : ((a.num.natAbs : ℕ) : ℚ) = (a.num : ℚ) := by
    rw [Int.cast_natAbs, abs_of_pos hn]
  have hB : ((a.den.natAbs : ℕ) : ℚ) = (a.den : ℚ) := by
    rw [Int.cast_natAbs, abs_of_pos hd]
  have hxq1 : (2 : ℚ) ^ (p : ℤ) ≤ (a.num : ℚ) := by
    rw [zpow_natCast, ← hA]; exact_mod_cast hx1
  have hxq2 : (a.num : ℚ) < 2 ^ ((p : ℤ) + 1) := by
    rw [show ((p : ℤ) + 1) = ((p + 1 : ℕ) : ℤ) by push_cast; ring, zpow_natCast, ← hA]
    exact_mod_cast hx2
  have hyq1 : (2 : ℚ) ^ (q : ℤ) ≤ (a.den : ℚ) := by
    rw [zpow_natCast, ← hB]; exact_mod_cast hy1
  have hyq2 : (a.den : ℚ) < 2 ^ ((q : ℤ) + 1) := by
    rw [show ((q : ℤ) + 1) = ((q + 1 : ℕ) : ℤ) by push_cast; ring, zpow_natCast, ← hB]
    exact_mod_cast hy2
  have hval : a.val = (a.num : ℚ) / (a.den : ℚ) := rfl
  have key1 : (2 : ℚ) ^ ((p : ℤ) - q - 1) < a.val := by
    rw [hval, lt_div_iff₀ hdq]
    calc (2 : ℚ) ^ ((p : ℤ) - q - 1) * (a.den : ℚ)
        < 2 ^ ((p : ℤ) - q - 1) * 2 ^ ((q : ℤ) + 1) := by
          exact mul_lt_mul_of_pos_left hyq2 (by positivity)
      _ = 2 ^ (p : ℤ) := by
          rw [← zpow_add₀ (two_ne_zero (α := ℚ))]; ring_nf
      _ ≤ (a.num : ℚ) := hxq1
  have key2 : a.val < 2 ^ ((p : ℤ) - q + 1) := by
    rw [hval, div_lt_iff₀ hdq]
    calc (a.num : ℚ) < 2 ^ ((p : ℤ) + 1) := hxq2
      _ = 2 ^ ((p : ℤ) - q + 1) * 2 ^ (q : ℤ) := by
          rw [← zpow_add₀ (two_ne_zero (α := ℚ))]; ring_nf
      _ ≤ 2 ^ ((p : ℤ) - q + 1) * (a.den : ℚ) := by
          exact mul_le_mul_of_nonneg_left hyq1 (by positivity)
  have hhalf : (Frac.shift2 ⟨1, 1⟩ ((p : ℤ) - q)).val = 2 ^ ((p : ℤ) - q) := by
    rw [Frac.val_shift2]
    simp [Frac.val]
  have hhden : 0 < (Frac.shift2 ⟨1, 1⟩ ((p : ℤ) - q)).den :=
    Frac.shift2_den ⟨1, 1⟩ _ (by norm_num)
  unfold floorLog2F
  rw [← hp, ← hq]
  by_cases hblt : Frac.blt a (Frac.shift2 ⟨1, 1⟩ ((p : ℤ) - q)) = true
  · have hlt : a.val < 2 ^ ((p : ℤ) - q) := by
      rw [← hhalf]; exact (Frac.blt_iff _ _ hd hhden).mp hblt
    rw [if_pos hblt]
    constructor
    · rw [show (p : ℤ) - q - 1 = (p : ℤ) - q - 1 from rfl]
      exact le_of_lt key1
    · rw [show (p : ℤ) - q - 1 + 1 = (p : ℤ) - q by ring]
      exact hlt
  · have hge : 2 ^ ((p : ℤ) - q) ≤ a.val := by
      rw [← hhalf]
      by_contra hcon
      push_neg at hcon
      exact hblt ((Frac.blt_iff _ _ hd hhden).mpr hcon)
    rw [if_neg hblt]
    exact ⟨hge, key2⟩

/-- Rounding to the nearest integer moves a fraction by at most `1/2`. -/
theorem rndInt_err (a : Frac) (hd : 0 < a.den) : |(rndInt a : ℚ) - a.val| ≤ 1 / 2 := by
  have hdne : (a.den : ℚ) ≠ 0 := by
    have : (0 : ℚ) < (a.den : ℚ) := by exact_mod_cast hd
    exact ne_of_gt this
  have hfl := Frac.floorF_eq a hd
  have hfr : (a.subInt a.floorF).val = a.val - (⌊a.val⌋ : ℚ) := by
    rw [Frac.val_subInt _ _ hdne, hfl]
  have hfrden : 0 < (a.subInt a.floorF).den := hd
  have hhden : (0 : ℤ) < (⟨1, 2⟩ : Frac).den := by norm_num
  have hhval : (⟨1, 2⟩ : Frac).val = 1 / 2 := by norm_num [Frac.val]
  have h0 : (0 : ℚ) ≤ a.val - ⌊a.val⌋ := by linarith [Int.floor_le a.val]
  have h1 : a.val - ⌊a.val⌋ < 1 := by linarith [Int.lt_floor_add_one a.val]
  unfold rndInt
  by_cases hb1 : Frac.blt (a.subInt a.floorF) ⟨1, 2⟩ = true
  · have hlt : a.val - ⌊a.val⌋ < 1 / 2 := by
      have := (Frac.blt_iff _ _ hfrden hhden).mp hb1
      rwa [hfr, hhval] at this
    rw [if_pos hb1, hfl, abs_le]
    constructor <;> linarith
  · rw [if_neg hb1]
    have hge : 1 / 2 ≤ a.val - ⌊a.val⌋ := by
      by_contra hcon
      push_neg at hcon
      exact hb1 ((Frac.blt_iff _ _ hfrden hhden).mpr (by rw [hfr, hhval]; exact hcon))
    by_cases hb2 : Frac.blt ⟨1, 2⟩ (a.subInt a.floorF) = true
    · have hgt : 1 / 2 < a.val - ⌊a.val⌋ := by
        have := (Frac.blt_iff _ _ hhden hfrden).mp hb2
        rwa [hfr, hhval] at this
      rw [if_pos hb2, hfl, abs_le]
      push_cast
      constructor <;> linarith
    · have heqv : a.val - ⌊a.val⌋ = 1 / 2 := by
        have hle : a.val - ⌊a.val⌋ ≤ 1 / 2 := by
          by_contra hcon
          push_neg at hcon
          exact hb2 ((Frac.blt_iff _ _ hhden hfrden).mpr (by rw [hfr, hhval]; exact hcon))
        linarith
      rw [if_neg hb2]
      by_cases hpar : a.floorF % 2 = 0
      · rw [if_pos hpar, hfl, abs_le]
        constructor <;> linarith
      · rw [if_neg hpar, hfl, abs_le]
        push_cast
        constructor <;> linarith

theorem Frac.shift2_num_pos (a : Frac) (s : ℤ) (ha : 0 < a.num) : 0 < (a.shift2 s).num := by
  cases s with
  | ofNat k => exact mul_pos ha (by positivity)
  | negSucc k => exact ha

/-- Binary64 rounding of a positive value: positivity is preserved and the
relative error is at most `2^(-53)`. -/
theorem rnd53_spec (a : Frac) (hn : 0 < a.num) (hd : 0 < a.den) :
    0 < (rnd53 a).num ∧ 0 < (rnd53 a).den ∧
      |(rnd53 a).val - a.val| ≤ a.val / 2 ^ 53 := by
  have hnq : (0 : ℚ) < (a.num : ℚ) := by exact_mod_cast hn
  have hdq : (0 : ℚ) < (a.den : ℚ) := by exact_mod_cast hd
  have hvalpos : 0 < a.val := div_pos hnq hdq
  have hble : ¬(a.ble0 = true) := by
    simp only [Frac.ble0, decide_eq_true_eq, not_le]
    exact hn
  obtain ⟨he1, he2⟩ := floorLog2F_spec a hn hd
  set e := floorLog2F a with hedef
  set s : ℤ := 52 - e with hsdef
  set scaled := a.shift2 s with hscdef
  have hscden : 0 < scaled.den := Frac.shift2_den a s hd
  have hscval : scaled.val = a.val * 2 ^ s := Frac.val_shift2 a s
  have hpow_pos : ∀ z : ℤ, (0 : ℚ) < 2 ^ z := fun z => zpow_pos (by norm_num) z
  have hz52 : (2 : ℚ) ^ (52 : ℤ) = 2 ^ (52 : ℕ) := by norm_cast
  have hz53 : (2 : ℚ) ^ (53 : ℤ) = 2 ^ (53 : ℕ) := by norm_cast
  have hlow : (2 : ℚ) ^ (52 : ℤ) ≤ scaled.val := by
    rw [hscval, hsdef]
    calc (2 : ℚ) ^ (52 : ℤ) = 2 ^ e * 2 ^ (52 - e) := by
          rw [← zpow_add₀ (two_ne_zero (α := ℚ))]; ring_nf
      _ ≤ a.val * 2 ^ (52 - e) :=
          mul_le_mul_of_nonneg_right he1 (le_of_lt (hpow_pos _))
  have hm := rndInt_err scaled hscden
  set m := rndInt scaled with hmdef
  have hmq : (2 : ℚ) ^ (52 : ℤ) - 1 / 2 ≤ (m : ℚ) := by
    have := (abs_le.mp hm).1
    linarith
  have h52big : (1 : ℚ) ≤ (2 : ℚ) ^ (52 : ℤ) := by rw [hz52]; norm_num
  have hmqpos : (0 : ℚ) < (m : ℚ) := by linarith
  have hmpos : 0 < m := by exact_mod_cast hmqpos
  have hres : rnd53 a = Frac.shift2 ⟨m, 1⟩ (-s) := by
    unfold rnd53
    rw [if_neg hble]
  have hval1 : (Frac.shift2 ⟨m, 1⟩ (-s)).val = (m : ℚ) * 2 ^ (-s) := by
    rw [Frac.val_shift2]
    simp [Frac.val]
  have hcan : scaled.val * (2 : ℚ) ^ (-s) = a.val := by
    rw [hscval, mul_assoc, ← zpow_add₀ (two_ne_zero (α := ℚ))]
    simp
  refine ⟨?_, ?_, ?_⟩
  · rw [hres]; exact Frac.shift2_num_pos _ _ hmpos
  · rw [hres]; exact Frac.shift2_den _ _ (by norm_num)
  · rw [hres, hval1, ← hcan, ← sub_mul, abs_mul, abs_of_pos (hpow_pos (-s))]
    calc |(m : ℚ) - scaled.val| * 2 ^ (-s)
        ≤ 1 / 2 * 2 ^ (-s) :=
          mul_le_mul_of_nonneg_right hm (le_of_lt (hpow_pos _))
      _ ≤ scaled.val / 2 ^ 53 * 2 ^ (-s) := by
          refine mul_le_mul_of_nonneg_right ?_ (le_of_lt (hpow_pos _))
          rw [div_le_div_iff₀ (by norm_num) (by positivity)]
          calc (1 : ℚ) * 2 ^ 53 = 2 ^ (52 : ℤ) * 2 := by rw [hz52]; ring
            _ ≤ scaled.val * 2 := mul_le_mul_of_nonneg_right hlow (by norm_num)
      _ = scaled.val * 2 ^ (-s) / 2 ^ 53 := by ring

/-- The binary64 height is within one pixel of the exact rational floor,
for any realistically sized image (`h·M/w ≤ 2^40`). -/
theorem pyNewHeight_close (h w M : ℕ) (hw : 0 < w) (hh : 0 < h) (hM : 0 < M)
    (hsmall : h * M ≤ 2 ^ 40 * w) :
    ((pyNewHeight h w M : ℤ) - ((h * M / w : ℕ) : ℤ)).natAbs ≤ 1 := by
  have hwq : (0 : ℚ) < (w : ℚ) := by exact_mod_cast hw
  have hhq : (0 : ℚ) < (h : ℚ) := by exact_mod_cast hh
  have hMq : (0 : ℚ) < (M : ℚ) := by exact_mod_cast hM
  -- the exact quotient and its rounding
  set q0 : ℚ := (M : ℚ) / (w : ℚ) with hq0def
  have hq0pos : 0 < q0 := div_pos hMq hwq
  have hdq0num : 0 < (Frac.divNat M w).num := by
    simp only [Frac.divNat]; exact_mod_cast hM
  have hdq0den : 0 < (Frac.divNat M w).den := by
    simp only [Frac.divNat]; exact_mod_cast hw
  have hdq0val : (Frac.divNat M w).val = q0 := by
    simp only [Frac.divNat, Frac.val, hq0def]
    push_cast
    ring
  obtain ⟨hr1, hr2, hr3⟩ := rnd53_spec (Frac.divNat M w) hdq0num hdq0den
  set r := rnd53 (Frac.divNat M w) with hrdef
  rw [hdq0val] at hr3
  have hrvalpos : 0 < r.val := by
    refine div_pos ?_ ?_
    · exact_mod_cast hr1
    · exact_mod_cast hr2
  -- the product and its rounding
  have hpnum : 0 < (Frac.mul ⟨(h : ℤ), 1⟩ r).num := by
    simp only [Frac.mul]
    exact mul_pos (by exact_mod_cast hh) hr1
  have hpden : 0 < (Frac.mul ⟨(h : ℤ), 1⟩ r).den := by
    simp only [Frac.mul]
    simpa using hr2
  have hpval : (Frac.mul ⟨(h : ℤ), 1⟩ r).val = (h : ℚ) * r.val := by
    rw [Frac.val_mul]
    simp [Frac.val]
  obtain ⟨hy1, hy2, hy3⟩ := rnd53_spec (Frac.mul ⟨(h : ℤ), 1⟩ r) hpnum hpden
  set y := rnd53 (Frac.mul ⟨(h : ℤ), 1⟩ r) with hydef
  rw [hpval] at hy3
  have hyvalpos : 0 < y.val := by
    refine div_pos ?_ ?_
    · exact_mod_cast hy1
    · exact_mod_cast hy2
  -- error budget
  set ε : ℚ := 1 / 2 ^ 53 with hεdef
  have hεpos : 0 < ε := by norm_num [hεdef]
  have hε1 : ε ≤ 1 := by norm_num [hεdef]
  have hdiv : ∀ x : ℚ, x / 2 ^ 53 = x * ε := by
    intro x; rw [hεdef]; ring
  rw [hdiv] at hr3 hy3
  set t : ℚ := (h : ℚ) * q0 with htdef
  have htpos : 0 < t := mul_pos hhq hq0pos
  have hr_up : r.val ≤ q0 + q0 * ε := by linarith [(abs_le.mp hr3).2]
  have step1 : |(h : ℚ) * r.val - t| ≤ (h : ℚ) * (q0 * ε) := by
    rw [htdef, ← mul_sub, abs_mul, abs_of_pos hhq]
    exact mul_le_mul_of_nonneg_left hr3 (le_of_lt hhq)
  have step2 : |y.val - (h : ℚ) * r.val| ≤ (h : ℚ) * (q0 * ε) + (h : ℚ) * (q0 * ε * ε) := by
    calc |y.val - (h : ℚ) * r.val| ≤ (h : ℚ) * r.val * ε := hy3
      _ ≤ (h : ℚ) * (q0 + q0 * ε) * ε := by
          refine mul_le_mul_of_nonneg_right ?_ (le_of_lt hεpos)
          exact mul_le_mul_of_nonneg_left hr_up (le_of_lt hhq)
      _ = (h : ℚ) * (q0 * ε) + (h : ℚ) * (q0 * ε * ε) := by ring
  have htri := abs_sub_le y.val ((h : ℚ) * r.val) t
  have hq0ε : 0 ≤ (h : ℚ) * (q0 * ε) := by positivity
  have hsq : (h : ℚ) * (q0 * ε * ε) ≤ (h : ℚ) * (q0 * ε) := by
    refine mul_le_mul_of_nonneg_left ?_ (le_of_lt hhq)
    calc q0 * ε * ε ≤ q0 * ε * 1 := by
          refine mul_le_mul_of_nonneg_left hε1 ?_
          positivity
      _ = q0 * ε := by ring
  have htot : |y.val - t| ≤ 3 * (t * ε) := by
    have : (h : ℚ) * (q0 * ε) = t * ε := by rw [htdef]; ring
    linarith
  have htsmall : t ≤ 2 ^ 40 := by
    rw [htdef, hq0def, mul_div_assoc'] -- t = (h * M) / w
    rw [div_le_iff₀ hwq]
    calc ((h : ℚ) * M) = ((h * M : ℕ) : ℚ) := by push_cast; ring
      _ ≤ ((2 ^ 40 * w : ℕ) : ℚ) := by exact_mod_cast hsmall
      _ = 2 ^ 40 * (w : ℚ) := by push_cast; ring
  have hlt1 : |y.val - t| < 1 := by
    have h3 : 3 * (t * ε) ≤ 3 * (2 ^ 40 * ε) := by
      have := mul_le_mul_of_nonneg_right htsmall (le_of_lt hεpos)
      linarith
    have hnum : (3 : ℚ) * (2 ^ 40 * ε) < 1 := by norm_num [hεdef]
    linarith
  obtain ⟨hb1, hb2⟩ := abs_lt.mp hlt1
  -- identify the two floors
  have hyfl : y.floorF = ⌊y.val⌋ := Frac.floorF_eq y hy2
  have htfl : ⌊t⌋ = ((h * M / w : ℕ) : ℤ) := by
    have ht2 : t = (((h * M : ℕ) : ℤ) : ℚ) / ((w : ℕ) : ℚ) := by
      rw [htdef, hq0def]
      push_cast
      ring
    rw [ht2, Rat.floor_intCast_div_natCast, Int.natCast_div]
  have hfl_up : ⌊y.val⌋ ≤ ⌊t⌋ + 1 := by
    have : y.val ≤ t + 1 := by linarith
    calc ⌊y.val⌋ ≤ ⌊t + 1⌋ := Int.floor_le_floor this
      _ = ⌊t⌋ + 1 := by
          rw [show t + 1 = t + (1 : ℤ) by push_cast; ring, Int.floor_add_int]
  have hfl_dn : ⌊t⌋ - 1 ≤ ⌊y.val⌋ := by
    have : t - 1 ≤ y.val := by linarith
    calc ⌊t⌋ - 1 = ⌊t - 1⌋ := by
          rw [show t - 1 = t - (1 : ℤ) by push_cast; ring, Int.floor_sub_int]
      _ ≤ ⌊y.val⌋ := Int.floor_le_floor this
  have hflnn : 0 ≤ y.floorF := by
    rw [hyfl]
    exact Int.floor_nonneg.mpr (le_of_lt hyvalpos)
  have hcast : (pyNewHeight h w M : ℤ) = y.floorF := by
    have : pyNewHeight h w M = y.floorF.toNat := rfl
    rw [this, Int.toNat_of_nonneg hflnn]
  rw [hcast, ← htfl, hyfl]
  omega

/-! ## Claim theorems -/

/-- C1: For every event name and capture timestamp the Filename Deriver
produces the base name `<event>-<YYYY>-<MM>-<DD>-<HHMM>.jpg` when it is
free; on collisions it tries the numeric suffixes `-1`, `-2`, … in
strictly increasing order and returns the first free one (every earlier
candidate collides).  Consequently, all output filenames actually created
during one batch run are pairwise distinct (and distinct from the
pre-existing directory contents). -/
theorem C1_collision_free_filenames :
    (∀ (event : String) (dt : DateTime) (dir : List String),
      ∃ j, deriveName (mkBase event dt) dir = candidate (mkBase event dt) j ∧
        candidate (mkBase event dt) j ∉ dir ∧
        ∀ i, i < j → candidate (mkBase event dt) i ∈ dir) ∧
    (∀ (event : String) (dir0 : List String) (files : List FileSpec),
      ∃ fresh, (files.foldl (processFile event) ⟨dir0, [], 0, 0, 0, 0⟩).dir
          = fresh ++ dir0 ∧ fresh.Nodup ∧ ∀ n ∈ fresh, n ∉ dir0) := by
  constructor
  · intro event dt dir
    exact deriveName_spec (mkBase event dt) dir
  · intro event dir0 files
    exact foldl_dir_nodup event dir0 files ⟨dir0, [], 0, 0, 0, 0⟩
      ⟨[], rfl, List.nodup_nil, by simp⟩

/-- Witness for C1 at a concrete event, timestamp and directory. -/
theorem C1_collision_free_filenames_witness :
    (∃ j, deriveName (mkBase "solstice" ⟨2024, 12, 21, 8, 0, 0⟩)
        ["solstice-2024-12-21-0800.jpg"]
          = candidate (mkBase "solstice" ⟨2024, 12, 21, 8, 0, 0⟩) j ∧
        candidate (mkBase "solstice" ⟨2024, 12, 21, 8, 0, 0⟩) j
          ∉ ["solstice-2024-12-21-0800.jpg"] ∧
        ∀ i, i < j → candidate (mkBase "solstice" ⟨2024, 12, 21, 8, 0, 0⟩) i
          ∈ ["solstice-2024-12-21-0800.jpg"]) ∧
    (∃ fresh, (([⟨"a.jpg", 3, none, ⟨2020, 1, 1, 0, 0, 0⟩, false, some 2, false⟩,
        ⟨"b.jpg", 3, none, ⟨2020, 1, 1, 0, 0, 0⟩, false, some 2, false⟩] :
          List FileSpec).foldl (processFile "solstice") ⟨[], [], 0, 0, 0, 0⟩).dir
        = fresh ++ [] ∧ fresh.Nodup ∧ ∀ n ∈ fresh, n ∉ ([] : List String)) :=
  ⟨C1_collision_free_filenames.1 "solstice" ⟨2024, 12, 21, 8, 0, 0⟩
      ["solstice-2024-12-21-0800.jpg"],
    C1_collision_free_filenames.2 "solstice" [] _⟩

/-- No embedded capture timestamp of the file parses: every string stored
under either datetime tag fails `strptime`. -/
def noEmbeddedParse (f : FileSpec) : Prop :=
  ∀ d s, f.exif = some d →
    (d.lookup tagDateTimeOriginal = some s ∨ d.lookup tagDateTimeDigitized = some s) →
    parseExifDT s = none

/-- C2: The Metadata Reader is total — for every input it either returns
an EXIF-derived timestamp without warning or returns the file's
last-modified time with a warning; whenever no embedded timestamp
parses, the result is exactly the modification-time fallback with its
warning.  No parsing failure escapes as an error. -/
theorem C2_metadata_reader_never_raises : ∀ f : FileSpec,
    (get_exif_datetime f = (f.mtime, true) ∨ ∃ dt, get_exif_datetime f = (dt, false)) ∧
    (noEmbeddedParse f → get_exif_datetime f = (f.mtime, true)) := by
  intro f
  constructor
  · rcases hex : f.exif with _ | d
    · left; simp [get_exif_datetime, hex]
    · rcases hlk : d.lookup tagDateTimeOriginal with _ | s
      · rcases hlk2 : d.lookup tagDateTimeDigitized with _ | s2
        · left; simp [get_exif_datetime, hex, hlk, hlk2]
        · rcases hp : parseExifDT s2 with _ | dt
          · left; simp [get_exif_datetime, hex, hlk, hlk2, hp]
          · right; exact ⟨dt, by simp [get_exif_datetime, hex, hlk, hlk2, hp]⟩
      · rcases hp : parseExifDT s with _ | dt
        · left; simp [get_exif_datetime, hex, hlk, hp]
        · right; exact ⟨dt, by simp [get_exif_datetime, hex, hlk, hp]⟩
  · intro hnp
    rcases hex : f.exif with _ | d
    · simp [get_exif_datetime, hex]
    · rcases hlk : d.lookup tagDateTimeOriginal with _ | s
      · rcases hlk2 : d.lookup tagDateTimeDigitized with _ | s2
        · simp [get_exif_datetime, hex, hlk, hlk2]
        · have hps := hnp d s2 hex (Or.inr hlk2)
          simp [get_exif_datetime, hex, hlk, hlk2, hps]
      · have hps := hnp d s hex (Or.inl hlk)
        simp [get_exif_datetime, hex, hlk, hps]

/-- Witness for C2: a file whose EXIF block is present but contains no
datetime tag falls back to its modification time with a warning. -/
theorem C2_metadata_reader_never_raises_witness :
    (get_exif_datetime ⟨"a.jpg", 5, some [], ⟨2020, 1, 1, 0, 0, 0⟩, false, none, false⟩
        = (⟨2020, 1, 1, 0, 0, 0⟩, true) ∨
      ∃ dt, get_exif_datetime
        ⟨"a.jpg", 5, some [], ⟨2020, 1, 1, 0, 0, 0⟩, false, none, false⟩ = (dt, false)) ∧
    get_exif_datetime ⟨"a.jpg", 5, some [], ⟨2020, 1, 1, 0, 0, 0⟩, false, none, false⟩
        = (⟨2020, 1, 1, 0, 0, 0⟩, true) :=
  ⟨(C2_metadata_reader_never_raises _).1,
    (C2_metadata_reader_never_raises
        ⟨"a.jpg", 5, some [], ⟨2020, 1, 1, 0, 0, 0⟩, false, none, false⟩).2
      (by intro d s hd hlk
          simp only [Option.some.injEq] at hd
          subst hd
          simp [List.lookup] at hlk)⟩

/-- C3 (counterexample): the claim says a present-but-malformed first
field moves on to the digitized field.  It does not: with
`DateTimeOriginal = "garbage"` and a perfectly parsable
`DateTimeDigitized`, the reader returns the file's modification time
(with a warning) instead of the digitized timestamp — the `ValueError`
from `strptime` jumps straight to the `except` handler, skipping the
second field. -/
theorem C3_counterexample :
    get_exif_datetime ⟨"a.jpg", 10,
        some [(tagDateTimeOriginal, "garbage"), (tagDateTimeDigitized, "2024:12:21 08:00:00")],
        ⟨2020, 1, 1, 0, 0, 0⟩, false, none, false⟩
      = (⟨2020, 1, 1, 0, 0, 0⟩, true) ∧
    parseExifDT "2024:12:21 08:00:00" = some ⟨2024, 12, 21, 8, 0, 0⟩ ∧
    (⟨2020, 1, 1, 0, 0, 0⟩ : DateTime) ≠ ⟨2024, 12, 21, 8, 0, 0⟩ := by
  refine ⟨by decide, by decide, by decide⟩

/-- C3 (amended): the Metadata Reader moves from the original-capture
field to the digitized field only when the first is *absent*.  If the
first field is present but malformed, it falls back directly to the
modification time (the digitized field is never consulted); the
digitized field's value is returned only when the original field is
missing altogether. -/
theorem C3_amended_field_priority : ∀ (f : FileSpec) (d : List (ℕ × String)),
    f.exif = some d →
    (∀ s, d.lookup tagDateTimeOriginal = some s → parseExifDT s = none →
      get_exif_datetime f = (f.mtime, true)) ∧
    (d.lookup tagDateTimeOriginal = none →
      ∀ s dt, d.lookup tagDateTimeDigitized = some s → parseExifDT s = some dt →
        get_exif_datetime f = (dt, false)) := by
  intro f d hex
  constructor
  · intro s hlk hp
    simp [get_exif_datetime, hex, hlk, hp]
  · intro hlk s dt hlk2 hp
    simp [get_exif_datetime, hex, hlk, hlk2, hp]

/-- Witness for C3 (amended), at the counterexample file and at a file
missing the original-capture field. -/
theorem C3_amended_field_priority_witness :
    get_exif_datetime ⟨"a.jpg", 10,
        some [(tagDateTimeOriginal, "garbage"), (tagDateTimeDigitized, "2024:12:21 08:00:00")],
        ⟨2020, 1, 1, 0, 0, 0⟩, false, none, false⟩
      = (⟨2020, 1, 1, 0, 0, 0⟩, true) ∧
    get_exif_datetime ⟨"b.jpg", 10,
        some [(tagDateTimeDigitized, "2024:12:21 08:05:00")],
        ⟨2020, 1, 1, 0, 0, 0⟩, false, none, false⟩
      = (⟨2024, 12, 21, 8, 5, 0⟩, false) :=
  ⟨(C3_amended_field_priority _ _ rfl).1 "garbage" (by decide) (by decide),
    (C3_amended_field_priority
        ⟨"b.jpg", 10, some [(tagDateTimeDigitized, "2024:12:21 08:05:00")],
          ⟨2020, 1, 1, 0, 0, 0⟩, false, none, false⟩ _ rfl).2
      (by decide) "2024:12:21 08:05:00" ⟨2024, 12, 21, 8, 5, 0⟩ (by decide) (by decide)⟩

/-- C4: no per-file error ever escapes into the batch loop — the loop
body is total and each iteration increments exactly one of the two
counters, so after the loop the counters account for every file: the
batch always advances to the next file and is never aborted. -/
theorem C4_no_exception_escapes_loop : ∀ (event : String) (dir0 : List String)
    (files : List FileSpec),
    ((files.foldl (processFile event) ⟨dir0, [], 0, 0, 0, 0⟩).processed
      + (files.foldl (processFile event) ⟨dir0, [], 0, 0, 0, 0⟩).failed)
    = files.length := by
  intro event dir0 files
  rw [foldl_count]
  simp

/-- C5 (code evaluated at the failing input): a batch whose only file is
a zero-byte `.jpg` that fails transcoding reaches the summary with
`total_original_size = 0`, and the reduction-percentage computation of
line 190 raises `ZeroDivisionError` (`none`) instead of printing the
summary — the computation is *not* guarded.  Moreover a batch with zero
qualifying files returns early at line 125 and never reports the
zero-processed/zero-failed summary. -/
theorem C5_summary_division_unguarded :
    process_photos "solstice" []
        [⟨"empty.jpg", 0, none, ⟨2020, 1, 1, 0, 0, 0⟩, false, none, false⟩]
      = .completed ⟨[], [], 0, 1, 0, 0⟩ none ∧
    process_photos "solstice" [] [] = .noFiles := by
  refine ⟨by decide, by decide⟩

/-- C6 (counterexample): the claim says that on transcoding failure
neither size total changes for that file.  But the original byte size is
accrued at line 158, *before* `optimize_image` is called: a 100-byte file
that fails transcoding leaves `total_original_size = 100`, not `0`. -/
theorem C6_counterexample :
    processFile "solstice" ⟨[], [], 0, 0, 0, 0⟩
        ⟨"f.jpg", 100, none, ⟨2020, 1, 1, 0, 0, 0⟩, false, none, false⟩
      = ⟨[], [], 0, 1, 100, 0⟩ ∧ (100 : ℕ) ≠ 0 := by
  refine ⟨by decide, by decide⟩

/-- C6 (amended): on transcoding success the original and optimized byte
sizes are accrued, the success count is incremented and the original is
copied to the backup directory; on transcoding failure only the failure
count is incremented, the backup copy is skipped and the optimized total
is unchanged — but the original byte size *is* still accrued into the
totals (the accrual happens before transcoding). -/
theorem C6_amended_stats_update : ∀ (event : String) (st : BatchState) (f : FileSpec)
    (outSize : ℕ),
    (f.statRaises = false → f.transcodeResult = some outSize → f.size ≠ 0 →
      f.backupRaises = false →
      processFile event st f = { st with
        dir := deriveName (mkBase event (get_exif_datetime f).1) st.dir :: st.dir,
        backups := f.name :: st.backups,
        processed := st.processed + 1,
        totalOrig := st.totalOrig + f.size,
        totalOpt := st.totalOpt + outSize }) ∧
    (f.statRaises = false → f.transcodeResult = none →
      processFile event st f = { st with
        failed := st.failed + 1,
        totalOrig := st.totalOrig + f.size }) := by
  intro event st f outSize
  constructor
  · intro h1 h2 h3 h4
    simp [processFile, h1, h2, h3, h4]
  · intro h1 h2
    simp [processFile, h1, h2]

/-- Witness for C6 (amended): one succeeding and one failing file. -/
theorem C6_amended_stats_update_witness :
    processFile "solstice" ⟨[], [], 0, 0, 0, 0⟩
        ⟨"a.jpg", 30, none, ⟨2020, 1, 1, 0, 0, 0⟩, false, some 12, false⟩
      = ⟨["solstice-2020-01-01-0000.jpg"], ["a.jpg"], 1, 0, 30, 12⟩ ∧
    processFile "solstice" ⟨[], [], 0, 0, 0, 0⟩
        ⟨"b.jpg", 40, none, ⟨2020, 1, 1, 0, 0, 0⟩, false, none, false⟩
      = ⟨[], [], 0, 1, 40, 0⟩ :=
  ⟨(C6_amended_stats_update "solstice" ⟨[], [], 0, 0, 0, 0⟩
      ⟨"a.jpg", 30, none, ⟨2020, 1, 1, 0, 0, 0⟩, false, some 12, false⟩ 12).1
        rfl rfl (by decide) rfl,
    (C6_amended_stats_update "solstice" ⟨[], [], 0, 0, 0, 0⟩
      ⟨"b.jpg", 40, none, ⟨2020, 1, 1, 0, 0, 0⟩, false, none, false⟩ 0).2 rfl rfl⟩

/-- C7: when metadata extraction succeeds (yielding the nonempty blob
that `piexif.dump` always produces), the transcoded output carries
exactly that blob; when extraction fails, the output is still produced,
just without metadata — the operation does not fail. -/
theorem C7_metadata_verbatim : ∀ (img : SrcImage) (M q : ℕ) (b : List ℕ),
    img.openFails = false → img.saveFails = false →
    (img.exifBlob = some b → b ≠ [] →
      ∃ out, optimize_image img M q = some out ∧ out.exif = some b) ∧
    (img.exifBlob = none →
      ∃ out, optimize_image img M q = some out ∧ out.exif = none) := by
  intro img M q b ho hs
  constructor
  · intro hb hne
    have hbe : b.isEmpty = false := by
      cases b with
      | nil => exact absurd rfl hne
      | cons x xs => rfl
    have heq : optimize_image img M q = some
        { width := (resizeDims img.width img.height M).1,
          height := (resizeDims img.width img.height M).2,
          mode := (colorNormalize img.mode).2,
          colorOp := (colorNormalize img.mode).1,
          exif := some b, quality := q, optimizeFlag := true, progressive := true } := by
      simp only [optimize_image, ho, hs, Bool.false_eq_true, if_false, hb, hbe]
    exact ⟨_, heq, rfl⟩
  · intro hb
    have heq : optimize_image img M q = some
        { width := (resizeDims img.width img.height M).1,
          height := (resizeDims img.width img.height M).2,
          mode := (colorNormalize img.mode).2,
          colorOp := (colorNormalize img.mode).1,
          exif := none, quality := q, optimizeFlag := true, progressive := true } := by
      simp only [optimize_image, ho, hs, Bool.false_eq_true, if_false, hb]
    exact ⟨_, heq, rfl⟩

/-- Witness for C7: an image with a one-byte metadata blob and one whose
extraction failed. -/
theorem C7_metadata_verbatim_witness :
    (∃ out, optimize_image ⟨"RGB", 100, 50, some [7], false, false⟩ 1920 82 = some out ∧
      out.exif = some [7]) ∧
    (∃ out, optimize_image ⟨"RGB", 100, 50, none, false, false⟩ 1920 82 = some out ∧
      out.exif = none) :=
  ⟨(C7_metadata_verbatim ⟨"RGB", 100, 50, some [7], false, false⟩ 1920 82 [7]
      rfl rfl).1 rfl (by decide),
    (C7_metadata_verbatim ⟨"RGB", 100, 50, none, false, false⟩ 1920 82 []
      rfl rfl).2 rfl⟩

/-- Behaviour of the color-mode normalization of lines 79–86. -/
theorem colorNormalize_spec (m : String) :
    (colorNormalize m).2 = "RGB" ∧
    ((m = "RGBA" ∨ m = "LA" ∨ m = "P") →
      ∃ msk, (colorNormalize m).1 = .pasteOnWhite msk) ∧
    (¬(m = "RGBA" ∨ m = "LA" ∨ m = "P") → m ≠ "RGB" →
      (colorNormalize m).1 = .convertRGB) ∧
    (m = "RGB" → (colorNormalize m).1 = .keep) := by
  by_cases h1 : m = "RGBA" ∨ m = "LA" ∨ m = "P"
  · have hRGBno : ¬ m = "RGB" := by
      rintro rfl
      rcases h1 with h | h | h <;> simp at h
    refine ⟨?_, fun _ => ?_, fun hc => absurd h1 hc, fun hc => absurd hc hRGBno⟩
    · unfold colorNormalize; rw [if_pos h1]
    · unfold colorNormalize; rw [if_pos h1]; exact ⟨_, rfl⟩
  · by_cases h2 : m = "RGB"
    · refine ⟨?_, fun hc => absurd hc h1, fun _ hc => absurd h2 hc, fun _ => ?_⟩
      · unfold colorNormalize; rw [if_neg h1, if_neg (by simp [h2])]
      · unfold colorNormalize; rw [if_neg h1, if_neg (by simp [h2])]
    · refine ⟨?_, fun hc => absurd hc h1, fun _ _ => ?_, fun hc => absurd hc h2⟩
      · unfold colorNormalize; rw [if_neg h1, if_pos (by simp [h2])]
      · unfold colorNormalize; rw [if_neg h1, if_pos (by simp [h2])]

/-- C9: the pixel data handed to the JPEG encoder is always direct-color
RGB: transparency-carrying or indexed modes (`RGBA`, `LA`, `P`) go
through the paste-onto-white-background path, every other non-RGB mode is
converted with `convert('RGB')`, and RGB input is left as is — the output
is never indexed or alpha-carrying. -/
theorem C9_always_direct_rgb : ∀ (img : SrcImage) (M q : ℕ) (out : OutImage),
    optimize_image img M q = some out →
    out.mode = "RGB" ∧
    ((img.mode = "RGBA" ∨ img.mode = "LA" ∨ img.mode = "P") →
      ∃ msk, out.colorOp = .pasteOnWhite msk) ∧
    (¬(img.mode = "RGBA" ∨ img.mode = "LA" ∨ img.mode = "P") → img.mode ≠ "RGB" →
      out.colorOp = .convertRGB) ∧
    (img.mode = "RGB" → out.colorOp = .keep) := by
  intro img M q out h
  cases ho : img.openFails with
  | true => rw [optimize_image, if_pos ho] at h; exact absurd h (by simp)
  | false =>
    cases hs : img.saveFails with
    | true =>
      rw [optimize_image, if_neg (by rw [ho]; exact Bool.false_ne_true)] at h
      rw [if_pos hs] at h
      exact absurd h (by simp)
    | false =>
      rw [optimize_image, if_neg (by rw [ho]; exact Bool.false_ne_true)] at h
      rw [if_neg (by rw [hs]; exact Bool.false_ne_true)] at h
      have hout := (Option.some_inj.mp h).symm
      obtain ⟨hn1, hn2, hn3, hn4⟩ := colorNormalize_spec img.mode
      subst hout
      exact ⟨hn1, hn2, hn3, hn4⟩

/-- Witness for C9 at three concrete modes: a paletted image, a grayscale
image and an RGB image. -/
theorem C9_always_direct_rgb_witness :
    (∃ out, optimize_image ⟨"P", 10, 10, none, false, false⟩ 1920 82 = some out ∧
      out.mode = "RGB" ∧ ∃ msk, out.colorOp = .pasteOnWhite msk) ∧
    (∃ out, optimize_image ⟨"L", 10, 10, none, false, false⟩ 1920 82 = some out ∧
      out.mode = "RGB" ∧ out.colorOp = .convertRGB) ∧
    (∃ out, optimize_image ⟨"RGB", 10, 10, none, false, false⟩ 1920 82 = some out ∧
      out.mode = "RGB" ∧ out.colorOp = .keep) := by
  have hP : optimize_image ⟨"P", 10, 10, none, false, false⟩ 1920 82
      = some ⟨10, 10, "RGB", .pasteOnWhite true, none, 82, true, true⟩ := by decide
  have hL : optimize_image ⟨"L", 10, 10, none, false, false⟩ 1920 82
      = some ⟨10, 10, "RGB", .convertRGB, none, 82, true, true⟩ := by decide
  have hRGB : optimize_image ⟨"RGB", 10, 10, none, false, false⟩ 1920 82
      = some ⟨10, 10, "RGB", .keep, none, 82, true, true⟩ := by decide
  refine ⟨⟨_, hP, ?_⟩, ⟨_, hL, ?_⟩, ⟨_, hRGB, ?_⟩⟩
  · have := C9_always_direct_rgb ⟨"P", 10, 10, none, false, false⟩ 1920 82 _ hP
    exact ⟨this.1, this.2.1 (by decide)⟩
  · have := C9_always_direct_rgb ⟨"L", 10, 10, none, false, false⟩ 1920 82 _ hL
    exact ⟨this.1, this.2.2.1 (by decide) (by decide)⟩
  · have := C9_always_direct_rgb ⟨"RGB", 10, 10, none, false, false⟩ 1920 82 _ hRGB
    exact ⟨this.1, this.2.2.2 (by decide)⟩

/-- C8 (counterexample): the claim says the new height is exactly
`⌊h·M/w⌋`.  For `w = 2148`, `h = 537`, `M = 1920` the exact value is
`537·1920/2148 = 480` — but the code computes
`int(537 * (1920/2148))` in binary64, which yields `479`. -/
theorem C8_counterexample :
    resizeDims 2148 537 1920 = (1920, 479) ∧
    537 * 1920 / 2148 = 480 ∧ (479 : ℕ) ≠ 480 := by
  refine ⟨by decide, by decide, by decide⟩

/-- C8 (amended): if the width exceeds the maximum, the output width is
exactly the maximum and the output height is the binary64 evaluation of
`int(h * (M/w))`, which is within one pixel of `⌊h·M/w⌋` (for any
realistic size, `h·M/w ≤ 2^40`); images at or below the maximum width
are returned unchanged — never upscaled. -/
theorem C8_amended_resize : ∀ w h M : ℕ,
    (M < w → 0 < h → 0 < M → h * M ≤ 2 ^ 40 * w →
      resizeDims w h M = (M, pyNewHeight h w M) ∧
      ((pyNewHeight h w M : ℤ) - ((h * M / w : ℕ) : ℤ)).natAbs ≤ 1) ∧
    (w ≤ M → resizeDims w h M = (w, h)) := by
  intro w h M
  constructor
  · intro hMw hh hM hsmall
    refine ⟨?_, pyNewHeight_close h w M (by omega) hh hM hsmall⟩
    unfold resizeDims
    rw [if_pos hMw]
  · intro hwM
    unfold resizeDims
    rw [if_neg (by omega)]

/-- Witness for C8 (amended): the downscaled 2148×537 image and an
884×600 image left untouched. -/
theorem C8_amended_resize_witness :
    (resizeDims 2148 537 1920 = (1920, pyNewHeight 537 2148 1920) ∧
      ((pyNewHeight 537 2148 1920 : ℤ) - ((537 * 1920 / 2148 : ℕ) : ℤ)).natAbs ≤ 1) ∧
    resizeDims 884 600 1920 = (884, 600) :=
  ⟨(C8_amended_resize 2148 537 1920).1 (by decide) (by decide) (by decide) (by decide),
    (C8_amended_resize 884 600 1920).2 (by decide)⟩

/-- C10: if the backup copy raises after the transcoded output was
already written, the file is counted as failed (success count untouched),
yet the output file is on disk and both its original and optimized byte
sizes remain in the run totals — the statistics are not atomic with the
on-disk outcome. -/
theorem C10_backup_failure_not_atomic : ∀ (event : String) (st : BatchState)
    (f : FileSpec) (outSize : ℕ),
    f.statRaises = false → f.transcodeResult = some outSize → f.size ≠ 0 →
    f.backupRaises = true →
    processFile event st f = { st with
      dir := deriveName (mkBase event (get_exif_datetime f).1) st.dir :: st.dir,
      totalOrig := st.totalOrig + f.size,
      totalOpt := st.totalOpt + outSize,
      failed := st.failed + 1 } := by
  intro event st f outSize h1 h2 h3 h4
  simp [processFile, h1, h2, h3, h4]

/-- Witness for C10: a 50-byte file transcoded to 20 bytes whose backup
copy raises; the output name is on disk, both totals are accrued, the
file counts as failed. -/
theorem C10_backup_failure_not_atomic_witness :
    processFile "solstice" ⟨[], [], 0, 0, 0, 0⟩
        ⟨"c.jpg", 50, none, ⟨2020, 1, 1, 0, 0, 0⟩, false, some 20, true⟩
      = ⟨["solstice-2020-01-01-0000.jpg"], [], 0, 1, 50, 20⟩ :=
  C10_backup_failure_not_atomic "solstice" ⟨[], [], 0, 0, 0, 0⟩
    ⟨"c.jpg", 50, none, ⟨2020, 1, 1, 0, 0, 0⟩, false, some 20, true⟩ 20
    rfl rfl (by decide) rfl
